import Mathlib

/-!
# WhisperJni: transcription session lifecycle and invocation pipeline

A shallow embedding of `app/src/main/cpp/WhisperJni.cpp`.

* The file-level global `g_ctx` and everything observable from outside the two
  JNI entry points (the calls made to the whisper engine, in order, and the
  lines written to the Android log) live in an explicit `World` that every
  entry point receives and returns.
* The whisper engine itself (`whisper.h`) is an external library.  It is a
  parameter of the development: an `Engine σ` packs the five library functions
  the file calls, acting on an arbitrary engine state `σ`, together with the
  two `*_default_params` functions and the constant `WHISPER_SAMPLE_RATE`.
* `float` is IEEE-754 binary32.  Values are kept as rationals and every
  arithmetic step is followed by an explicit rounding to binary32
  (`f32Round`, round-to-nearest, ties-to-even).
-/

namespace WhisperJni

/-! ## Machine values -/

/-- A non-null `whisper_context *`.  A possibly-null pointer is an
`Option Handle`, with `none` for `nullptr`. -/
abbrev Handle := Nat

/-- The JNI type `jshort`: a signed 16-bit integer. -/
abbrev JShort := { s : Int // -32768 ≤ s ∧ s ≤ 32767 }

/-- Round a rational to the nearest integer, ties to the even neighbour. -/
def roundHalfEven (x : ℚ) : Int :=
  let f : Int := ⌊x⌋
  let d : ℚ := x - f
  if d < 1 / 2 then f
  else if 1 / 2 < d then f + 1
  else if f % 2 = 0 then f else f + 1

/-- Exponent of the binary32 binade that contains `x`: `⌊log₂ |x|⌋`, not below
the exponent `-126` of the smallest normal number (subnormals share it). -/
def f32Exponent (x : ℚ) : Int := max (Int.log 2 |x|) (-126)

/-- IEEE-754 binary32 rounding (nearest, ties to even) of a rational whose
magnitude is within the finite range of the format: the 24-bit significand is
`x` measured in units of the last place of its binade. -/
def f32Round (x : ℚ) : ℚ :=
  let ulp : ℚ := (2 : ℚ) ^ (f32Exponent x - 23)
  (roundHalfEven (x / ulp) : ℚ) * ulp

/-- The conversion `static_cast<float>(s)` of a `jshort`. -/
def f32OfShort (s : JShort) : ℚ := f32Round (s.val : ℚ)

/-- The binary32 division `a / b`. -/
def f32Div (a b : ℚ) : ℚ := f32Round (a / b)

/-! ## The engine interface (`whisper.h`) -/

/-- The enum `whisper_sampling_strategy`. -/
inductive whisper_sampling_strategy
  | WHISPER_SAMPLING_GREEDY
  | WHISPER_SAMPLING_BEAM_SEARCH
  deriving DecidableEq, Repr

/-- The struct `whisper_context_params`, restricted to the field the file
writes.  All other fields keep what `whisper_context_default_params` gave. -/
structure whisper_context_params where
  use_gpu : Bool
  deriving DecidableEq, Repr

/-- The struct `whisper_full_params`, restricted to the sampling strategy it is
created for and the fields the file writes.  `language` is a `const char *`:
`none` is `nullptr`, `some s` a C string with contents `s`. -/
structure whisper_full_params where
  strategy : whisper_sampling_strategy
  print_realtime : Bool
  print_progress : Bool
  print_timestamps : Bool
  print_special : Bool
  translate : Bool
  no_context : Bool
  single_segment : Bool
  temperature : ℚ
  n_threads : Int
  language : Option String
  deriving DecidableEq

/-- The part of `whisper.h` the file uses, over an engine state `σ`.  Loading,
releasing and decoding may change the engine state; `whisper_full_n_segments`
and `whisper_full_get_segment_text` only read the results of the last decode. -/
structure Engine (σ : Type) where
  /-- The constant `WHISPER_SAMPLE_RATE`. -/
  WHISPER_SAMPLE_RATE : Int
  whisper_context_default_params : whisper_context_params
  whisper_full_default_params : whisper_sampling_strategy → whisper_full_params
  /-- Loads a model; `none` is a null result. -/
  whisper_init_from_file_with_params :
    σ → String → whisper_context_params → Option Handle × σ
  whisper_free : σ → Handle → σ
  /-- Runs the full decode; the `Int` is the returned code. -/
  whisper_full : σ → Handle → whisper_full_params → List ℚ → Int × σ
  whisper_full_n_segments : σ → Handle → Int
  /-- Text of a segment; `none` is a null `const char *`. -/
  whisper_full_get_segment_text : σ → Handle → Int → Option String

/-- One call made to the engine, with its arguments and what it returned. -/
inductive EngineCall
  | whisper_init_from_file_with_params
      (path : String) (cparams : whisper_context_params) (ret : Option Handle)
  | whisper_free (ctx : Handle)
  | whisper_full
      (ctx : Handle) (wparams : whisper_full_params) (samples : List ℚ) (ret : Int)
  | whisper_full_n_segments (ctx : Handle) (ret : Int)
  | whisper_full_get_segment_text (ctx : Handle) (i : Int) (ret : Option String)
  deriving DecidableEq

/-- One line written with `__android_log_print` under `LOG_TAG`. -/
inductive LogLine
  | ANDROID_LOG_INFO (msg : String)
  | ANDROID_LOG_ERROR (msg : String)
  deriving DecidableEq, Repr

/-! ## Program state -/

/-- The global `g_ctx`, the state of the engine, and the history of engine
calls and log lines (oldest first). -/
structure World (σ : Type) where
  g_ctx : Option Handle
  engine : σ
  calls : List EngineCall
  logcat : List LogLine

/-- The state at process start: `static whisper_context *g_ctx = nullptr;`. -/
def World.start {σ : Type} (e : σ) : World σ :=
  { g_ctx := none, engine := e, calls := [], logcat := [] }

/-- Record an engine call and the engine state it left. -/
def World.call {σ : Type} (w : World σ) (c : EngineCall) (e : σ) : World σ :=
  { w with engine := e, calls := w.calls ++ [c] }

/-- The macro `LOGI`. -/
def World.LOGI {σ : Type} (w : World σ) (msg : String) : World σ :=
  { w with logcat := w.logcat ++ [LogLine.ANDROID_LOG_INFO msg] }

/-- The macro `LOGE`. -/
def World.LOGE {σ : Type} (w : World σ) (msg : String) : World σ :=
  { w with logcat := w.logcat ++ [LogLine.ANDROID_LOG_ERROR msg] }

/-! ## `WhisperAsrNative.init` -/

/-- Lines 28-29: the context parameters `cparams`, the defaults with the GPU
switched off. -/
def cparams {σ : Type} (E : Engine σ) : whisper_context_params :=
  { E.whisper_context_default_params with use_gpu := false }

/-- The JNI function `init` (lines 16-41): returns the `jboolean`. -/
def Java_com_example_open_1autoglm_1android_asr_WhisperAsrNative_init {σ : Type}
    (E : Engine σ) (w : World σ) (modelPath : String) : Bool × World σ :=
  let w := w.LOGI ("Init whisper with model path: " ++ modelPath)
  let w :=
    match w.g_ctx with
    | some ctx =>
      { w.call (EngineCall.whisper_free ctx) (E.whisper_free w.engine ctx) with
        g_ctx := none }
    | none => w
  let cp := cparams E
  let r := E.whisper_init_from_file_with_params w.engine modelPath cp
  let w :=
    { w.call (EngineCall.whisper_init_from_file_with_params modelPath cp r.1) r.2 with
      g_ctx := r.1 }
  match w.g_ctx with
  | none => (false, w.LOGE "Failed to init whisper context")
  | some _ => (true, w.LOGI "Whisper context initialized")

/-! ## `WhisperAsrNative.transcribe` -/

/-- Lines 61-69: the buffer `pcmf32`, one `float` per input sample. -/
def pcmf32 (pcm : List JShort) : List ℚ :=
  pcm.map (fun s => f32Div (f32OfShort s) 32768)

/-- Lines 71-91: the decode configuration `wparams`.  `language_` is a
`jstring`, `none` when the reference is null. -/
def wparams {σ : Type} (E : Engine σ) (language_ : Option String) :
    whisper_full_params :=
  let lang_cstr : Option String := language_
  let p := E.whisper_full_default_params whisper_sampling_strategy.WHISPER_SAMPLING_GREEDY
  let p : whisper_full_params :=
    { p with
      print_realtime := false
      print_progress := false
      print_timestamps := false
      print_special := false
      translate := false
      no_context := true
      single_segment := false
      temperature := 0
      n_threads := 4 }
  match lang_cstr with
  | some s => if s ≠ "" then { p with language := some s } else { p with language := none }
  | none => { p with language := none }

/-- Lines 108-116: the loop over the segments, from `i = 0` while
`i < nSegments`.  Returns `result` and the engine calls made. -/
def segmentLoop {σ : Type} (E : Engine σ) (e : σ) (ctx : Handle) (nSegments : Int) :
    String × List EngineCall :=
  (List.range nSegments.toNat).foldl
    (fun (acc : String × List EngineCall) (i : Nat) =>
      let text := E.whisper_full_get_segment_text e ctx (Int.ofNat i)
      (match text with
        | some t => acc.1 ++ t
        | none => acc.1,
       acc.2 ++ [EngineCall.whisper_full_get_segment_text ctx (Int.ofNat i) text]))
    ("", [])

/-- The text of `u8"本地语音模型未初始化"`. -/
def msgNotInitialized : String := "本地语音模型未初始化"

/-- The text of `u8"本地语音识别失败"`. -/
def msgRecognitionFailed : String := "本地语音识别失败"

/-- The JNI function `transcribe` (lines 45-125): returns the contents of the
`jstring`. -/
def Java_com_example_open_1autoglm_1android_asr_WhisperAsrNative_transcribe {σ : Type}
    (E : Engine σ) (w : World σ) (pcm_ : List JShort) (sampleRate : Int)
    (language_ : Option String) : String × World σ :=
  match w.g_ctx with
  | none =>
    let w := w.LOGE "Whisper context not initialized"
    (msgNotInitialized, w)
  | some ctx =>
    let w :=
      if sampleRate ≠ E.WHISPER_SAMPLE_RATE then
        w.LOGE ("Unexpected sample rate: " ++ toString sampleRate ++ ", expected "
          ++ toString E.WHISPER_SAMPLE_RATE)
      else w
    let nSamples := pcm_.length
    let buf := pcmf32 pcm_
    let wp := wparams E language_
    let w := w.LOGI ("Running whisper_full on " ++ toString nSamples ++ " samples")
    let r := E.whisper_full w.engine ctx wp buf
    let ret := r.1
    let w := w.call (EngineCall.whisper_full ctx wp buf ret) r.2
    if ret ≠ 0 then
      let w := w.LOGE ("whisper_full failed, code=" ++ toString ret)
      (msgRecognitionFailed, w)
    else
      let nSegments := E.whisper_full_n_segments w.engine ctx
      let w := w.call (EngineCall.whisper_full_n_segments ctx nSegments) w.engine
      let loop := segmentLoop E w.engine ctx nSegments
      let result := loop.1
      let w := { w with calls := w.calls ++ loop.2 }
      let w := w.LOGI ("Transcription done, segments=" ++ toString nSegments)
      let result := if result.isEmpty then "" else result
      (result, w)

/-! ## Sequences of calls from the application layer -/

/-- One call made by the Java side. -/
inductive JniCall
  | init (modelPath : String)
  | transcribe (pcm : List JShort) (sampleRate : Int) (language : Option String)

/-- The world after one call from the Java side. -/
def step {σ : Type} (E : Engine σ) (w : World σ) : JniCall → World σ
  | JniCall.init modelPath =>
    (Java_com_example_open_1autoglm_1android_asr_WhisperAsrNative_init E w modelPath).2
  | JniCall.transcribe pcm sampleRate language =>
    (Java_com_example_open_1autoglm_1android_asr_WhisperAsrNative_transcribe
      E w pcm sampleRate language).2

/-- The world after a sequence of calls from the Java side, made one at a
time. -/
def run {σ : Type} (E : Engine σ) (w : World σ) (cs : List JniCall) : World σ :=
  cs.foldl (step E) w

/-! ## Vocabulary of the statements -/

/-- The line logged when the declared rate is not the one the engine wants. -/
def rateWarning {σ : Type} (E : Engine σ) (sampleRate : Int) : List LogLine :=
  if sampleRate ≠ E.WHISPER_SAMPLE_RATE then
    [LogLine.ANDROID_LOG_ERROR ("Unexpected sample rate: " ++ toString sampleRate
      ++ ", expected " ++ toString E.WHISPER_SAMPLE_RATE)]
  else []

/-- The engine state in which `init` calls the loader: the state left by
`whisper_free` when a context was stored, the current state otherwise. -/
def engineAtLoad {σ : Type} (E : Engine σ) (w : World σ) : σ :=
  match w.g_ctx with
  | some ctx => E.whisper_free w.engine ctx
  | none => w.engine

/-- What the loader answers to the call made by `init` (line 31). -/
def loadOutcome {σ : Type} (E : Engine σ) (w : World σ) (modelPath : String) :
    Option Handle × σ :=
  E.whisper_init_from_file_with_params (engineAtLoad E w) modelPath (cparams E)

/-- The release made by `init` (lines 23-26): one call when a context is
stored, none otherwise. -/
def releaseCalls {σ : Type} (w : World σ) : List EngineCall :=
  match w.g_ctx with
  | some ctx => [EngineCall.whisper_free ctx]
  | none => []

/-- The rational `s / 32768` for each sample `s`. -/
def exactQuotients (pcm : List JShort) : List ℚ :=
  pcm.map (fun s => (s.val : ℚ) / 32768)

/-- The contexts passed to the decode calls of a history, oldest first. -/
def decodeContexts : List EngineCall → List Handle
  | [] => []
  | EngineCall.whisper_full ctx _ _ _ :: cs => ctx :: decodeContexts cs
  | _ :: cs => decodeContexts cs

/-- Whether every `init` of a sequence of calls made from the world `w` finds
the engine loading its model successfully, each in the state it is made in. -/
def loadsSucceed {σ : Type} (E : Engine σ) : World σ → List JniCall → Bool
  | _, [] => true
  | w, JniCall.init modelPath :: cs =>
    (loadOutcome E w modelPath).1.isSome
      && loadsSucceed E (step E w (JniCall.init modelPath)) cs
  | w, JniCall.transcribe pcm sampleRate language :: cs =>
    loadsSucceed E (step E w (JniCall.transcribe pcm sampleRate language)) cs

/-- Whether an engine call creates or destroys a context. -/
def EngineCall.isLifecycle : EngineCall → Bool
  | EngineCall.whisper_init_from_file_with_params _ _ _ => true
  | EngineCall.whisper_free _ => true
  | _ => false

/-- A call that neither loads, releases nor decodes. -/
def EngineCall.isQuery : EngineCall → Bool
  | EngineCall.whisper_full_n_segments _ _ => true
  | EngineCall.whisper_full_get_segment_text _ _ _ => true
  | _ => false

/-- Whether an engine call is a load. -/
def EngineCall.isLoad : EngineCall → Bool
  | EngineCall.whisper_init_from_file_with_params _ _ _ => true
  | _ => false

/-- Effect of one engine call on the list of live contexts: a load that
returned a context adds it, a release removes it. -/
def liveStep (live : List Handle) : EngineCall → List Handle
  | EngineCall.whisper_init_from_file_with_params _ _ (some ctx) => live ++ [ctx]
  | EngineCall.whisper_free ctx => live.erase ctx
  | _ => live

/-- The contexts that are live (loaded and not yet released) after a history of
engine calls. -/
def liveHandles (cs : List EngineCall) : List Handle := cs.foldl liveStep []

/-- What a call loaded, if it is a load that returned a context. -/
def loadedHandle : EngineCall → Option Handle
  | EngineCall.whisper_init_from_file_with_params _ _ ret => ret
  | _ => none

/-- What a call released, if it is a release. -/
def releasedHandle : EngineCall → Option Handle
  | EngineCall.whisper_free ctx => some ctx
  | _ => none

/-- The contexts returned by the loads of a history, oldest first. -/
def loadedHandles (cs : List EngineCall) : List Handle := cs.filterMap loadedHandle

/-- The contexts passed to the releases of a history, oldest first. -/
def releasedHandles (cs : List EngineCall) : List Handle := cs.filterMap releasedHandle

/-- Effect of one engine call on the answer of the most recent load. -/
def lastStep (last : Option Handle) : EngineCall → Option Handle
  | EngineCall.whisper_init_from_file_with_params _ _ ret => ret
  | _ => last

/-- The answer of the most recent load of a history (`none` when there was no
load or the most recent one returned null). -/
def lastLoaded (cs : List EngineCall) : Option Handle := cs.foldl lastStep none

/-- The invariant that ties a history of engine calls to the stored context. -/
structure Tidy (cs : List EngineCall) (g : Option Handle) : Prop where
  live : liveHandles cs = g.toList
  last : ∀ ctx, g = some ctx → lastLoaded cs = some ctx
  atMostOne : ∀ p, p <+: cs → (liveHandles p).length ≤ 1
  freeLive : ∀ p ctx, p ++ [EngineCall.whisper_free ctx] <+: cs → liveHandles p = [ctx]
  loadEmpty : ∀ p path cp ret,
    p ++ [EngineCall.whisper_init_from_file_with_params path cp ret] <+: cs →
    liveHandles p = []
  decodeLast : ∀ p ctx wp samples ret,
    p ++ [EngineCall.whisper_full ctx wp samples ret] <+: cs → lastLoaded p = some ctx
  balance : ∀ h, (releasedHandles cs).count h + (if g = some h then 1 else 0)
    = (loadedHandles cs).count h

/-! ## A scripted engine and concrete runs -/

/-- A scripted engine.  Its state counts the contexts created so far; loading
fails exactly for the empty path and otherwise returns the next unused
handle; every decode returns the code `ret`; the decoded segments are `segs`.
The defaults are those of whisper.cpp. -/
def scripted (ret : Int) (segs : List (Option String)) : Engine Nat where
  WHISPER_SAMPLE_RATE := 16000
  whisper_context_default_params := { use_gpu := true }
  whisper_full_default_params := fun s =>
    { strategy := s
      print_realtime := false
      print_progress := true
      print_timestamps := true
      print_special := false
      translate := false
      no_context := true
      single_segment := false
      temperature := 0
      n_threads := 4
      language := some "en" }
  whisper_init_from_file_with_params := fun n path _ =>
    if path = "" then (none, n) else (some (n + 1), n + 1)
  whisper_free := fun n _ => n
  whisper_full := fun n _ _ _ => (ret, n)
  whisper_full_n_segments := fun _ _ => (segs.length : Int)
  whisper_full_get_segment_text := fun _ _ i => (segs.get? i.toNat).join

/-- The scripted engine whose decode succeeds with the three segments
`"Hello"`, `" "`, `"world"`. -/
def helloEngine : Engine Nat := scripted 0 [some "Hello", some " ", some "world"]

/-- The world after a first successful `init` from process start. -/
def readyWorld (E : Engine Nat) : World Nat :=
  (Java_com_example_open_1autoglm_1android_asr_WhisperAsrNative_init
    E (World.start 0) "ggml-base.bin").2

/-- Two loads with a decode after each, on the scripted engine: the first
context is released once, the second is the stored one. -/
def reinitCalls : List JniCall :=
  [JniCall.init "ggml-base.bin",
   JniCall.transcribe [⟨12, by decide⟩, ⟨-4, by decide⟩] 16000 (some "en"),
   JniCall.init "ggml-small.bin",
   JniCall.transcribe [⟨7, by decide⟩] 16000 none]

/-! ## Exactness of the binary32 arithmetic used by `pcmf32` -/

theorem roundHalfEven_intCast (n : Int) : roundHalfEven (n : ℚ) = n := by
  unfold roundHalfEven
  simp only [Int.floor_intCast, sub_self]
  norm_num

theorem f32Exponent_le (x : ℚ) (k : Nat) (hx : |x| ≤ (2 : ℚ) ^ k) :
    f32Exponent x ≤ (k : Int) := by
  unfold f32Exponent
  apply max_le
  · rcases (abs_nonneg x).eq_or_lt with h0 | hpos
    · rw [← h0, Int.log_of_right_le_zero 2 (le_refl (0 : ℚ))]
      exact Int.natCast_nonneg k
    · have h1 := Int.log_mono_right (b := 2) hpos hx
      have h2 : Int.log 2 ((2 : ℚ) ^ k) = (k : Int) := by
        have := Int.log_zpow (R := ℚ) (b := 2) (by norm_num) (k : Int)
        simpa using this
      rw [h2] at h1
      exact h1
  · have : (0 : Int) ≤ (k : Int) := Int.natCast_nonneg k
    omega

theorem round_in_binade (x : ℚ) (e k n : Int) (j : Nat)
    (hj : k - e = (j : Int)) (hn : x = (n : ℚ) * (2 : ℚ) ^ (k - 23)) :
    (roundHalfEven (x / (2 : ℚ) ^ (e - 23)) : ℚ) * (2 : ℚ) ^ (e - 23) = x := by
  have h2 : (2 : ℚ) ≠ 0 := by norm_num
  have hne : (2 : ℚ) ^ (e - 23) ≠ 0 := zpow_ne_zero _ h2
  have hsplit : k - 23 = (e - 23) + (j : Int) := by omega
  have hdiv : x / (2 : ℚ) ^ (e - 23) = ((n * 2 ^ j : Int) : ℚ) := by
    rw [hn, hsplit, zpow_add₀ h2, zpow_natCast]
    field_simp
    ring
  rw [hdiv, roundHalfEven_intCast, ← hdiv]
  field_simp

/-- A rational that is an integer multiple of `2 ^ (k - 23)` and of magnitude at
most `2 ^ k` is a binary32 number: rounding leaves it unchanged. -/
theorem f32Round_exact (x : ℚ) (k : Nat) (n : Int)
    (hx : |x| ≤ (2 : ℚ) ^ k) (hn : x = (n : ℚ) * (2 : ℚ) ^ ((k : Int) - 23)) :
    f32Round x = x := by
  have he := f32Exponent_le x k hx
  obtain ⟨j, hj⟩ : ∃ j : Nat, (k : Int) - f32Exponent x = (j : Int) :=
    ⟨((k : Int) - f32Exponent x).toNat, by omega⟩
  unfold f32Round
  exact round_in_binade x (f32Exponent x) k n j hj hn

theorem log_two_pow_24_succ : Int.log 2 (16777217 : ℚ) = 24 := by
  rw [Int.log_of_one_le_right 2 (by norm_num)]
  have hfloor : ⌊(16777217 : ℚ)⌋₊ = 16777217 := by
    exact_mod_cast Nat.floor_natCast (α := ℚ) 16777217
  have hlog : Nat.log 2 16777217 = 24 := by
    rw [Nat.log_eq_iff (by norm_num)]
    norm_num
  rw [hfloor, hlog]
  rfl

/-- The rounding does round: `2 ^ 24 + 1` is not a binary32 number, it lies
halfway between two of them and goes to the even one, `2 ^ 24`. -/
theorem f32Round_two_pow_24_succ : f32Round 16777217 = 16777216 := by
  unfold f32Round f32Exponent
  have habs : |(16777217 : ℚ)| = 16777217 := abs_of_pos (by norm_num)
  rw [habs, log_two_pow_24_succ]
  norm_num [roundHalfEven]

theorem f32OfShort_exact (s : JShort) : f32OfShort s = (s.val : ℚ) := by
  unfold f32OfShort
  apply f32Round_exact (s.val : ℚ) 15 (s.val * 2 ^ 8)
  · have h1 := s.property.1
    have h2 := s.property.2
    rw [abs_le]
    constructor
    · have : ((-32768 : Int) : ℚ) ≤ (s.val : ℚ) := by exact_mod_cast h1
      norm_num at this ⊢
      linarith
    · have : (s.val : ℚ) ≤ ((32767 : Int) : ℚ) := by exact_mod_cast h2
      norm_num at this ⊢
      linarith
  · push_cast
    norm_num
    rw [mul_assoc]
    norm_num

theorem sample_exact (s : JShort) :
    f32Div (f32OfShort s) 32768 = (s.val : ℚ) / 32768 := by
  rw [f32OfShort_exact]
  unfold f32Div
  apply f32Round_exact ((s.val : ℚ) / 32768) 0 (s.val * 2 ^ 8)
  · have h1 := s.property.1
    have h2 := s.property.2
    rw [abs_le]
    have a1 : ((-32768 : Int) : ℚ) ≤ (s.val : ℚ) := by exact_mod_cast h1
    have a2 : (s.val : ℚ) ≤ ((32767 : Int) : ℚ) := by exact_mod_cast h2
    norm_num at a1 a2 ⊢
    constructor
    · rw [le_div_iff₀ (by norm_num)]; linarith
    · rw [div_le_iff₀ (by norm_num)]; linarith
  · push_cast
    norm_num
    ring

theorem pcmf32_eq (pcm : List JShort) : pcmf32 pcm = exactQuotients pcm := by
  unfold pcmf32 exactQuotients
  apply List.map_congr_left
  intro s _
  exact sample_exact s

theorem quotient_bounds (s : JShort) :
    (-1 : ℚ) ≤ (s.val : ℚ) / 32768 ∧ (s.val : ℚ) / 32768 ≤ 1 := by
  have a1 : ((-32768 : Int) : ℚ) ≤ (s.val : ℚ) := by exact_mod_cast s.property.1
  have a2 : (s.val : ℚ) ≤ ((32767 : Int) : ℚ) := by exact_mod_cast s.property.2
  norm_num at a1 a2
  constructor
  · rw [le_div_iff₀ (by norm_num)]; linarith
  · rw [div_le_iff₀ (by norm_num)]; linarith

/-! ## The segment loop -/

theorem join_concat (l : List String) (t : String) :
    String.join (l ++ [t]) = String.join l ++ t := by
  simp [String.join, List.foldl_append]

theorem segmentLoop_aux {σ : Type} (E : Engine σ) (e : σ) (ctx : Handle) (n : Nat) :
    (List.range n).foldl
      (fun (acc : String × List EngineCall) (i : Nat) =>
        let text := E.whisper_full_get_segment_text e ctx (Int.ofNat i)
        (match text with
          | some t => acc.1 ++ t
          | none => acc.1,
         acc.2 ++ [EngineCall.whisper_full_get_segment_text ctx (Int.ofNat i) text]))
      ("", [])
    = (String.join ((List.range n).filterMap
          (fun (i : Nat) => E.whisper_full_get_segment_text e ctx (Int.ofNat i))),
       (List.range n).map (fun (i : Nat) =>
          EngineCall.whisper_full_get_segment_text ctx (Int.ofNat i)
            (E.whisper_full_get_segment_text e ctx (Int.ofNat i)))) := by
  induction n with
  | zero => rfl
  | succ n ih =>
    rw [List.range_succ, List.foldl_append, ih]
    simp only [List.foldl_cons, List.foldl_nil, List.filterMap_append, List.map_append,
      List.map_cons, List.map_nil, List.filterMap_cons, List.filterMap_nil]
    cases h : E.whisper_full_get_segment_text e ctx (Int.ofNat n) with
    | none => simp
    | some t => simp [join_concat]

/-- The loop appends the texts that are present, by increasing index, and asks
the engine for each index from `0` to `nSegments - 1` once, in that order. -/
theorem segmentLoop_eq {σ : Type} (E : Engine σ) (e : σ) (ctx : Handle) (nSegments : Int) :
    segmentLoop E e ctx nSegments
    = (String.join ((List.range nSegments.toNat).filterMap
          (fun (i : Nat) => E.whisper_full_get_segment_text e ctx (Int.ofNat i))),
       (List.range nSegments.toNat).map
          (fun (i : Nat) => EngineCall.whisper_full_get_segment_text ctx (Int.ofNat i)
            (E.whisper_full_get_segment_text e ctx (Int.ofNat i)))) :=
  segmentLoop_aux E e ctx nSegments.toNat

/-- When the engine reports the segments `segs`, the texts picked up by the
loop are those of `segs` that are present. -/
theorem filterMap_segments {σ : Type} (E : Engine σ) (e : σ) (ctx : Handle)
    (segs : List (Option String))
    (htext : ∀ (i : Nat) (h : i < segs.length),
      E.whisper_full_get_segment_text e ctx (Int.ofNat i) = segs.get ⟨i, h⟩) :
    (List.range segs.length).filterMap
      (fun (i : Nat) => E.whisper_full_get_segment_text e ctx (Int.ofNat i))
    = segs.reduceOption := by
  have hmap : (List.range segs.length).map
      (fun (i : Nat) => E.whisper_full_get_segment_text e ctx (Int.ofNat i)) = segs := by
    apply List.ext_getElem
    · simp
    · intro i h1 h2
      simp only [List.getElem_map, List.getElem_range]
      exact htext i h2
  have hfm : (List.range segs.length).filterMap
      (fun (i : Nat) => E.whisper_full_get_segment_text e ctx (Int.ofNat i))
      = ((List.range segs.length).map
          (fun (i : Nat) => E.whisper_full_get_segment_text e ctx (Int.ofNat i))).reduceOption := by
    unfold List.reduceOption
    rw [List.filterMap_map]
    rfl
  rw [hfm, hmap]

/-! ## What `transcribe` and `init` do in each state -/

theorem transcribe_none {σ : Type} (E : Engine σ) (w : World σ) (pcm_ : List JShort)
    (sampleRate : Int) (language_ : Option String) (h : w.g_ctx = none) :
    Java_com_example_open_1autoglm_1android_asr_WhisperAsrNative_transcribe
      E w pcm_ sampleRate language_
    = (msgNotInitialized,
       { w with logcat := w.logcat
          ++ [LogLine.ANDROID_LOG_ERROR "Whisper context not initialized"] }) := by
  unfold Java_com_example_open_1autoglm_1android_asr_WhisperAsrNative_transcribe
  simp [h, World.LOGE]

theorem transcribe_failed {σ : Type} (E : Engine σ) (w : World σ) (pcm_ : List JShort)
    (sampleRate : Int) (language_ : Option String) (ctx : Handle)
    (h : w.g_ctx = some ctx)
    (hret : (E.whisper_full w.engine ctx (wparams E language_) (pcmf32 pcm_)).1 ≠ 0) :
    Java_com_example_open_1autoglm_1android_asr_WhisperAsrNative_transcribe
      E w pcm_ sampleRate language_
    = (msgRecognitionFailed,
       { g_ctx := w.g_ctx
         engine := (E.whisper_full w.engine ctx (wparams E language_) (pcmf32 pcm_)).2
         calls := w.calls ++ [EngineCall.whisper_full ctx (wparams E language_) (pcmf32 pcm_)
           (E.whisper_full w.engine ctx (wparams E language_) (pcmf32 pcm_)).1]
         logcat := w.logcat ++ rateWarning E sampleRate
           ++ [LogLine.ANDROID_LOG_INFO ("Running whisper_full on "
                ++ toString pcm_.length ++ " samples"),
               LogLine.ANDROID_LOG_ERROR ("whisper_full failed, code=" ++ toString
                (E.whisper_full w.engine ctx (wparams E language_) (pcmf32 pcm_)).1)] }) := by
  unfold Java_com_example_open_1autoglm_1android_asr_WhisperAsrNative_transcribe
  by_cases hr : sampleRate = E.WHISPER_SAMPLE_RATE
  · simp [h, hr, World.call, World.LOGI, World.LOGE, rateWarning, hret]
  · simp [h, hr, World.call, World.LOGI, World.LOGE, rateWarning, hret]

theorem transcribe_decoded {σ : Type} (E : Engine σ) (w : World σ) (pcm_ : List JShort)
    (sampleRate : Int) (language_ : Option String) (ctx : Handle)
    (h : w.g_ctx = some ctx)
    (hret : (E.whisper_full w.engine ctx (wparams E language_) (pcmf32 pcm_)).1 = 0) :
    Java_com_example_open_1autoglm_1android_asr_WhisperAsrNative_transcribe
      E w pcm_ sampleRate language_
    = ((segmentLoop E (E.whisper_full w.engine ctx (wparams E language_) (pcmf32 pcm_)).2 ctx
          (E.whisper_full_n_segments
            (E.whisper_full w.engine ctx (wparams E language_) (pcmf32 pcm_)).2 ctx)).1,
       { g_ctx := w.g_ctx
         engine := (E.whisper_full w.engine ctx (wparams E language_) (pcmf32 pcm_)).2
         calls := w.calls ++ [EngineCall.whisper_full ctx (wparams E language_) (pcmf32 pcm_) 0,
             EngineCall.whisper_full_n_segments ctx (E.whisper_full_n_segments
               (E.whisper_full w.engine ctx (wparams E language_) (pcmf32 pcm_)).2 ctx)]
           ++ (segmentLoop E (E.whisper_full w.engine ctx (wparams E language_) (pcmf32 pcm_)).2
                ctx (E.whisper_full_n_segments
                  (E.whisper_full w.engine ctx (wparams E language_) (pcmf32 pcm_)).2 ctx)).2
         logcat := w.logcat ++ rateWarning E sampleRate
           ++ [LogLine.ANDROID_LOG_INFO ("Running whisper_full on "
                ++ toString pcm_.length ++ " samples"),
               LogLine.ANDROID_LOG_INFO ("Transcription done, segments=" ++ toString
                (E.whisper_full_n_segments
                  (E.whisper_full w.engine ctx (wparams E language_) (pcmf32 pcm_)).2 ctx))] }) := by
  unfold Java_com_example_open_1autoglm_1android_asr_WhisperAsrNative_transcribe
  have hempty : ∀ s : String, (if s.isEmpty = true then "" else s) = s := by
    intro s
    by_cases hs : s.isEmpty = true
    · rw [if_pos hs]; exact ((String.isEmpty_iff s).1 hs).symm
    · rw [if_neg hs]
  by_cases hr : sampleRate = E.WHISPER_SAMPLE_RATE
  · simp [h, hr, World.call, World.LOGI, World.LOGE, rateWarning, hret, hempty]
  · simp [h, hr, World.call, World.LOGI, World.LOGE, rateWarning, hret, hempty]

theorem init_eq {σ : Type} (E : Engine σ) (w : World σ) (modelPath : String) :
    Java_com_example_open_1autoglm_1android_asr_WhisperAsrNative_init E w modelPath
    = ((loadOutcome E w modelPath).1.isSome,
       { g_ctx := (loadOutcome E w modelPath).1
         engine := (loadOutcome E w modelPath).2
         calls := w.calls ++ releaseCalls w
           ++ [EngineCall.whisper_init_from_file_with_params modelPath (cparams E)
                (loadOutcome E w modelPath).1]
         logcat := w.logcat
           ++ [LogLine.ANDROID_LOG_INFO ("Init whisper with model path: " ++ modelPath),
               if (loadOutcome E w modelPath).1.isSome
               then LogLine.ANDROID_LOG_INFO "Whisper context initialized"
               else LogLine.ANDROID_LOG_ERROR "Failed to init whisper context"] }) := by
  unfold Java_com_example_open_1autoglm_1android_asr_WhisperAsrNative_init loadOutcome
    engineAtLoad releaseCalls
  cases hg : w.g_ctx with
  | none =>
    simp only [World.LOGI, World.call, World.LOGE, hg]
    cases hl : (E.whisper_init_from_file_with_params w.engine modelPath (cparams E)).1 <;>
      simp
  | some ctx =>
    simp only [World.LOGI, World.call, World.LOGE, hg]
    cases hl : (E.whisper_init_from_file_with_params (E.whisper_free w.engine ctx)
      modelPath (cparams E)).1 <;> simp

theorem get?_after {α : Type} (l : List α) (a : α) (r : List α) :
    (l ++ a :: r).get? l.length = some a := by
  induction l with
  | nil => rfl
  | cons b l ih => simpa using ih

theorem transcribe_calls {σ : Type} (E : Engine σ) (w : World σ)
    (pcm_ : List JShort) (sampleRate : Int) (language_ : Option String) :
    (Java_com_example_open_1autoglm_1android_asr_WhisperAsrNative_transcribe
      E w pcm_ sampleRate language_).2.g_ctx = w.g_ctx
    ∧ ∃ added,
      (Java_com_example_open_1autoglm_1android_asr_WhisperAsrNative_transcribe
        E w pcm_ sampleRate language_).2.calls = w.calls ++ added
      ∧ (∀ c ∈ added, c.isLifecycle = false)
      ∧ decodeContexts added = w.g_ctx.toList := by
  cases hg : w.g_ctx with
  | none =>
    rw [transcribe_none E w pcm_ sampleRate language_ hg]
    exact ⟨hg, [], by simp, by simp, rfl⟩
  | some ctx =>
    by_cases hret :
      (E.whisper_full w.engine ctx (wparams E language_) (pcmf32 pcm_)).1 = 0
    · rw [transcribe_decoded E w pcm_ sampleRate language_ ctx hg hret, segmentLoop_eq]
      simp only [List.append_assoc]
      refine ⟨hg, _, rfl, ?_, ?_⟩
      · intro c hc
        simp only [List.mem_append, List.mem_cons, List.mem_map, List.mem_range,
          List.mem_singleton, List.not_mem_nil, or_false] at hc
        rcases hc with (rfl | rfl) | ⟨i, _, rfl⟩ <;> rfl
      · simp only [List.cons_append, List.nil_append, decodeContexts, Option.toList]
        congr 1
        generalize (List.range _) = l
        induction l with
        | nil => rfl
        | cons a l ih => simpa [decodeContexts] using ih
    · rw [transcribe_failed E w pcm_ sampleRate language_ ctx hg hret]
      refine ⟨hg, _, rfl, ?_, rfl⟩
      intro c hc
      simp only [List.mem_singleton] at hc
      subst hc
      rfl

theorem readyWorld_g_ctx (ret : Int) (segs : List (Option String)) :
    (readyWorld (scripted ret segs)).g_ctx = some 1 := by
  simp [readyWorld, init_eq, loadOutcome, engineAtLoad, scripted, World.start]

theorem scripted_text (ret : Int) (segs : List (Option String)) (e : Nat) (ctx : Handle)
    (i : Nat) (h : i < segs.length) :
    (scripted ret segs).whisper_full_get_segment_text e ctx (Int.ofNat i)
      = segs.get ⟨i, h⟩ := by
  simp [scripted, List.getElem?_eq_getElem h]

/-! ## The invariant of the history of engine calls -/

theorem liveHandles_concat (cs : List EngineCall) (c : EngineCall) :
    liveHandles (cs ++ [c]) = liveStep (liveHandles cs) c := by
  simp [liveHandles, List.foldl_append]

theorem lastLoaded_concat (cs : List EngineCall) (c : EngineCall) :
    lastLoaded (cs ++ [c]) = lastStep (lastLoaded cs) c := by
  simp [lastLoaded, List.foldl_append]

theorem releasedHandles_concat (cs : List EngineCall) (c : EngineCall) :
    releasedHandles (cs ++ [c]) = releasedHandles cs ++ (releasedHandle c).toList := by
  unfold releasedHandles
  rw [List.filterMap_append]
  cases hc : releasedHandle c <;> simp [hc]

theorem prefix_concat_cases {α : Type} {p cs : List α} {x c : α}
    (h : p ++ [x] <+: cs ++ [c]) : (p = cs ∧ x = c) ∨ p ++ [x] <+: cs := by
  rcases List.prefix_concat_iff.1 h with heq | hp
  · left
    have := List.append_inj' heq rfl
    exact ⟨this.1, by simpa using this.2⟩
  · right
    exact hp

theorem toList_length_le_one (g : Option Handle) : g.toList.length ≤ 1 := by
  cases g <;> simp

theorem Tidy.nil : Tidy [] none where
  live := rfl
  last := by intro ctx h; cases h
  atMostOne := by
    intro p hp
    rw [List.prefix_nil.1 hp]
    simp [liveHandles]
  freeLive := by
    intro p ctx hp
    have := List.prefix_nil.1 hp
    simp at this
  loadEmpty := by
    intro p path cp ret hp
    have := List.prefix_nil.1 hp
    simp at this
  decodeLast := by
    intro p ctx wp samples ret hp
    have := List.prefix_nil.1 hp
    simp at this
  balance := by intro h; simp [releasedHandles, loadedHandles]

/-- The invariant survives one more engine call that respects the protocol:
a release is of the stored context, a load is made with nothing stored, a
decode is on the stored context. -/
theorem Tidy.concat {cs : List EngineCall} {g : Option Handle} (T : Tidy cs g)
    (c : EngineCall) (g' : Option Handle)
    (hlive : liveStep g.toList c = g'.toList)
    (hlast : ∀ ctx, g' = some ctx → lastStep (lastLoaded cs) c = some ctx)
    (hfree : ∀ ctx, c = EngineCall.whisper_free ctx → g = some ctx)
    (hload : ∀ path cp ret,
      c = EngineCall.whisper_init_from_file_with_params path cp ret → g = none)
    (hdec : ∀ ctx wp samples ret,
      c = EngineCall.whisper_full ctx wp samples ret → g = some ctx)
    (hbal : ∀ h, (releasedHandle c).toList.count h + (if g' = some h then 1 else 0)
      = (loadedHandle c).toList.count h + (if g = some h then 1 else 0)) :
    Tidy (cs ++ [c]) g' where
  live := by rw [liveHandles_concat, T.live, hlive]
  last := by
    intro ctx h
    rw [lastLoaded_concat]
    exact hlast ctx h
  atMostOne := by
    intro p hp
    rcases List.prefix_concat_iff.1 hp with rfl | hp
    · rw [liveHandles_concat, T.live, hlive]
      exact toList_length_le_one g'
    · exact T.atMostOne p hp
  freeLive := by
    intro p ctx hp
    rcases prefix_concat_cases hp with ⟨rfl, hc⟩ | hp
    · rw [T.live, hfree ctx hc.symm]
      rfl
    · exact T.freeLive p ctx hp
  loadEmpty := by
    intro p path cp ret hp
    rcases prefix_concat_cases hp with ⟨rfl, hc⟩ | hp
    · rw [T.live, hload path cp ret hc.symm]
      rfl
    · exact T.loadEmpty p path cp ret hp
  decodeLast := by
    intro p ctx wp samples ret hp
    rcases prefix_concat_cases hp with ⟨rfl, hc⟩ | hp
    · exact T.last ctx (hdec ctx wp samples ret hc.symm)
    · exact T.decodeLast p ctx wp samples ret hp
  balance := by
    intro h
    have h1 := T.balance h
    have h2 := hbal h
    have hr : releasedHandles (cs ++ [c])
        = releasedHandles cs ++ (releasedHandle c).toList := by
      unfold releasedHandles
      rw [List.filterMap_append]
      cases hc : releasedHandle c <;> simp [hc]
    have hl : loadedHandles (cs ++ [c]) = loadedHandles cs ++ (loadedHandle c).toList := by
      unfold loadedHandles
      rw [List.filterMap_append]
      cases hc : loadedHandle c <;> simp [hc]
    rw [hr, hl, List.count_append, List.count_append]
    omega

theorem Tidy.concat_query {cs : List EngineCall} {g : Option Handle} (T : Tidy cs g)
    (c : EngineCall) (hc : c.isQuery = true) : Tidy (cs ++ [c]) g := by
  apply T.concat c g
  · cases c <;> first | rfl | cases hc
  · intro ctx hg
    have := T.last ctx hg
    cases c <;> first | exact this | cases hc
  · intro ctx h; subst h; cases hc
  · intro path cp ret h; subst h; cases hc
  · intro ctx wp samples ret h; subst h; cases hc
  · intro h
    cases c <;> first | rfl | cases hc

theorem Tidy.append_queries {g : Option Handle} (l : List EngineCall) :
    ∀ {cs : List EngineCall}, Tidy cs g → (∀ c ∈ l, c.isQuery = true) → Tidy (cs ++ l) g := by
  induction l with
  | nil => intro cs T _; simpa using T
  | cons c l ih =>
    intro cs T hq
    have h1 := T.concat_query c (hq c (List.mem_cons_self c l))
    have h2 := ih h1 (fun d hd => hq d (List.mem_cons_of_mem c hd))
    simpa using h2

theorem Tidy.concat_free {cs : List EngineCall} {ctx : Handle} (T : Tidy cs (some ctx)) :
    Tidy (cs ++ [EngineCall.whisper_free ctx]) none := by
  apply T.concat
  · simp [liveStep]
  · intro c h; cases h
  · intro c h; cases h; rfl
  · intro path cp ret h; cases h
  · intro c wp samples ret h; cases h
  · intro h
    by_cases hh : ctx = h
    · simp [releasedHandle, loadedHandle, hh]
    · have h0 : List.count h [ctx] = 0 :=
        List.count_eq_zero.2 (fun hm => hh (List.mem_singleton.1 hm).symm)
      simp [releasedHandle, loadedHandle, hh, h0]

theorem Tidy.concat_load {cs : List EngineCall} (T : Tidy cs none)
    (path : String) (cp : whisper_context_params) (ret : Option Handle) :
    Tidy (cs ++ [EngineCall.whisper_init_from_file_with_params path cp ret]) ret := by
  apply T.concat
  · cases ret <;> simp [liveStep]
  · intro c h; subst h; rfl
  · intro c h; cases h
  · intro _ _ _ _; rfl
  · intro c wp samples r h; cases h
  · intro h
    cases ret with
    | none => simp [releasedHandle, loadedHandle]
    | some r =>
      by_cases hh : r = h
      · simp [releasedHandle, loadedHandle, hh]
      · have h0 : List.count h [r] = 0 :=
          List.count_eq_zero.2 (fun hm => hh (List.mem_singleton.1 hm).symm)
        simp [releasedHandle, loadedHandle, hh, h0]

theorem Tidy.concat_full {cs : List EngineCall} {ctx : Handle} (T : Tidy cs (some ctx))
    (wp : whisper_full_params) (samples : List ℚ) (ret : Int) :
    Tidy (cs ++ [EngineCall.whisper_full ctx wp samples ret]) (some ctx) := by
  apply T.concat
  · rfl
  · intro c h
    exact T.last c h
  · intro c h; cases h
  · intro path cp r h; cases h
  · intro c wp' s' r' h; cases h; rfl
  · intro h; rfl

theorem Tidy.init {σ : Type} (E : Engine σ) (w : World σ) (modelPath : String)
    (T : Tidy w.calls w.g_ctx) :
    Tidy (Java_com_example_open_1autoglm_1android_asr_WhisperAsrNative_init E w modelPath).2.calls
      (Java_com_example_open_1autoglm_1android_asr_WhisperAsrNative_init
        E w modelPath).2.g_ctx := by
  rw [init_eq]
  show Tidy (w.calls ++ releaseCalls w ++ [_]) _
  have hrel : Tidy (w.calls ++ releaseCalls w) none := by
    unfold releaseCalls
    cases hg : w.g_ctx with
    | none =>
      rw [hg] at T
      simpa using T
    | some ctx =>
      rw [hg] at T
      exact T.concat_free
  exact hrel.concat_load _ _ _

theorem Tidy.transcribe {σ : Type} (E : Engine σ) (w : World σ)
    (pcm_ : List JShort) (sampleRate : Int) (language_ : Option String)
    (T : Tidy w.calls w.g_ctx) :
    Tidy (Java_com_example_open_1autoglm_1android_asr_WhisperAsrNative_transcribe
        E w pcm_ sampleRate language_).2.calls
      (Java_com_example_open_1autoglm_1android_asr_WhisperAsrNative_transcribe
        E w pcm_ sampleRate language_).2.g_ctx := by
  cases hg : w.g_ctx with
  | none =>
    rw [transcribe_none E w pcm_ sampleRate language_ hg]
    exact T
  | some ctx =>
    rw [hg] at T
    by_cases hret :
      (E.whisper_full w.engine ctx (wparams E language_) (pcmf32 pcm_)).1 = 0
    · rw [transcribe_decoded E w pcm_ sampleRate language_ ctx hg hret, segmentLoop_eq]
      show Tidy (w.calls ++ [_, _] ++ _) w.g_ctx
      rw [hg]
      have h1 := (T.concat_full (wparams E language_) (pcmf32 pcm_) 0).concat_query
        (EngineCall.whisper_full_n_segments ctx (E.whisper_full_n_segments
          (E.whisper_full w.engine ctx (wparams E language_) (pcmf32 pcm_)).2 ctx)) rfl
      rw [List.append_assoc] at h1
      apply h1.append_queries
      intro c hc
      simp only [List.mem_map, List.mem_range] at hc
      obtain ⟨i, _, rfl⟩ := hc
      rfl
    · rw [transcribe_failed E w pcm_ sampleRate language_ ctx hg hret]
      show Tidy (w.calls ++ [_]) w.g_ctx
      rw [hg]
      exact T.concat_full _ _ _

theorem Tidy.run {σ : Type} (E : Engine σ) (cs : List JniCall) :
    ∀ w : World σ, Tidy w.calls w.g_ctx → Tidy (run E w cs).calls (run E w cs).g_ctx := by
  induction cs with
  | nil => intro w T; exact T
  | cons c cs ih =>
    intro w T
    show Tidy (WhisperJni.run E (step E w c) cs).calls (WhisperJni.run E (step E w c) cs).g_ctx
    apply ih
    cases c with
    | init modelPath => exact Tidy.init E w modelPath T
    | transcribe pcm sampleRate language => exact Tidy.transcribe E w pcm sampleRate language T

/-- In a history where every release is of the one live context, the calls
made after a load and before the next load either leave its context live and
release nothing, or release exactly its context and leave nothing live. -/
theorem segment_after_load {cs : List EngineCall}
    (hfree : ∀ p ctx, p ++ [EngineCall.whisper_free ctx] <+: cs → liveHandles p = [ctx])
    (P : List EngineCall) (r : Option Handle) (hP : liveHandles P = r.toList) :
    ∀ q, P ++ q <+: cs → (∀ c ∈ q, c.isLoad = false) →
      (liveHandles (P ++ q) = r.toList ∧ releasedHandles q = [])
      ∨ (liveHandles (P ++ q) = [] ∧ releasedHandles q = r.toList) := by
  intro q
  induction q using List.reverseRecOn with
  | nil =>
    intro _ _
    left
    exact ⟨by simpa using hP, rfl⟩
  | append_singleton q c ih =>
    intro hpre hq
    have hpre' : P ++ q <+: cs := by
      refine List.IsPrefix.trans ?_ hpre
      rw [← List.append_assoc]
      exact List.prefix_append _ _
    have ih' := ih hpre' (fun d hd => hq d (List.mem_append_left _ hd))
    have hc := hq c (List.mem_append_right _ (List.mem_singleton_self c))
    rw [← List.append_assoc, liveHandles_concat, releasedHandles_concat]
    cases c with
    | whisper_init_from_file_with_params path cp ret => cases hc
    | whisper_free x =>
      have hx : liveHandles (P ++ q) = [x] := by
        apply hfree
        rw [List.append_assoc]
        exact hpre
      rcases ih' with ⟨h1, h2⟩ | ⟨h1, _⟩
      · right
        rw [hx] at h1
        rw [hx, h2, ← h1]
        simp [liveStep, releasedHandle]
      · rw [hx] at h1
        cases h1
    | whisper_full ctx wp samples ret =>
      simpa [liveStep, releasedHandle] using ih'
    | whisper_full_n_segments ctx ret =>
      simpa [liveStep, releasedHandle] using ih'
    | whisper_full_get_segment_text ctx i ret =>
      simpa [liveStep, releasedHandle] using ih'

theorem lastLoaded_append_noLoad (P q : List EngineCall)
    (hq : ∀ c ∈ q, c.isLoad = false) : lastLoaded (P ++ q) = lastLoaded P := by
  induction q using List.reverseRecOn with
  | nil => simp
  | append_singleton q c ih =>
    rw [← List.append_assoc, lastLoaded_concat, ih (fun d hd => hq d (List.mem_append_left _ hd))]
    have hc := hq c (List.mem_append_right _ (List.mem_singleton_self c))
    cases c <;> first | rfl | cases hc

theorem lastLoaded_init {σ : Type} (E : Engine σ) (w : World σ) (modelPath : String) :
    lastLoaded
      (Java_com_example_open_1autoglm_1android_asr_WhisperAsrNative_init E w modelPath).2.calls
    = (Java_com_example_open_1autoglm_1android_asr_WhisperAsrNative_init
        E w modelPath).2.g_ctx := by
  rw [init_eq]
  show lastLoaded (_ ++ [_]) = _
  rw [lastLoaded_concat]
  rfl

theorem lastLoaded_transcribe {σ : Type} (E : Engine σ) (w : World σ)
    (pcm_ : List JShort) (sampleRate : Int) (language_ : Option String) :
    lastLoaded (Java_com_example_open_1autoglm_1android_asr_WhisperAsrNative_transcribe
        E w pcm_ sampleRate language_).2.calls = lastLoaded w.calls := by
  obtain ⟨_, added, hcalls, hlife, _⟩ := transcribe_calls E w pcm_ sampleRate language_
  rw [hcalls]
  apply lastLoaded_append_noLoad
  intro c hc
  have := hlife c hc
  cases c <;> first | rfl | cases this

theorem lastLoaded_run {σ : Type} (E : Engine σ) (cs : List JniCall) :
    ∀ w : World σ, lastLoaded w.calls = w.g_ctx →
      lastLoaded (run E w cs).calls = (run E w cs).g_ctx := by
  induction cs with
  | nil => intro w h; exact h
  | cons c cs ih =>
    intro w h
    show lastLoaded (WhisperJni.run E (step E w c) cs).calls
      = (WhisperJni.run E (step E w c) cs).g_ctx
    apply ih
    cases c with
    | init modelPath => exact lastLoaded_init E w modelPath
    | transcribe pcm sampleRate language =>
      show lastLoaded (Java_com_example_open_1autoglm_1android_asr_WhisperAsrNative_transcribe
        E w pcm sampleRate language).2.calls
        = (Java_com_example_open_1autoglm_1android_asr_WhisperAsrNative_transcribe
            E w pcm sampleRate language).2.g_ctx
      rw [lastLoaded_transcribe, (transcribe_calls E w pcm sampleRate language).1]
      exact h

theorem Tidy.released_between {cs : List EngineCall} {g : Option Handle} (T : Tidy cs g)
    (p q : List EngineCall) (path : String) (cp : whisper_context_params) (r : Option Handle)
    (path' : String) (cp' : whisper_context_params) (r' : Option Handle)
    (hpre : p ++ [EngineCall.whisper_init_from_file_with_params path cp r] ++ q
      ++ [EngineCall.whisper_init_from_file_with_params path' cp' r'] <+: cs)
    (hq : ∀ c ∈ q, c.isLoad = false) :
    releasedHandles q = r.toList := by
  have hpq : p ++ [EngineCall.whisper_init_from_file_with_params path cp r] ++ q <+: cs :=
    List.IsPrefix.trans (List.prefix_append _ _) hpre
  have hp : p ++ [EngineCall.whisper_init_from_file_with_params path cp r] <+: cs :=
    List.IsPrefix.trans (List.prefix_append _ _) hpq
  have hP : liveHandles (p ++ [EngineCall.whisper_init_from_file_with_params path cp r])
      = r.toList := by
    rw [liveHandles_concat, T.loadEmpty p path cp r hp]
    cases r <;> rfl
  have hend := T.loadEmpty _ path' cp' r' hpre
  rcases segment_after_load T.freeLive _ r hP q hpq hq with ⟨h1, h2⟩ | ⟨_, h2⟩
  · rw [h2, ← h1, hend]
  · exact h2

theorem Tidy.released_after {cs : List EngineCall} {g : Option Handle} (T : Tidy cs g)
    (hlast : lastLoaded cs = g)
    (p q : List EngineCall) (path : String) (cp : whisper_context_params) (r : Option Handle)
    (hcs : cs = p ++ [EngineCall.whisper_init_from_file_with_params path cp r] ++ q)
    (hq : ∀ c ∈ q, c.isLoad = false) :
    releasedHandles q = [] ∧ g = r := by
  have hpq : p ++ [EngineCall.whisper_init_from_file_with_params path cp r] ++ q <+: cs := by
    rw [hcs]
  have hp : p ++ [EngineCall.whisper_init_from_file_with_params path cp r] <+: cs :=
    List.IsPrefix.trans (List.prefix_append _ _) hpq
  have hP : liveHandles (p ++ [EngineCall.whisper_init_from_file_with_params path cp r])
      = r.toList := by
    rw [liveHandles_concat, T.loadEmpty p path cp r hp]
    cases r <;> rfl
  have hg : g = r := by
    rw [← hlast, hcs, lastLoaded_append_noLoad _ q hq, lastLoaded_concat]
    rfl
  refine ⟨?_, hg⟩
  rcases segment_after_load T.freeLive _ r hP q hpq hq with ⟨_, h2⟩ | ⟨h1, h2⟩
  · exact h2
  · rw [← hcs, T.live, hg] at h1
    rw [h2, h1]

/-! ## Uninitialized guard -/

/-- C1: when no engine context is alive (`g_ctx` is null), `transcribe` returns
exactly the not-initialized message, for every sample buffer, sample rate and
language hint, and makes no engine call: the history of engine calls and the
engine state are what they were before the call. -/
theorem transcribe_uninitialized {σ : Type} (E : Engine σ) (w : World σ)
    (pcm_ : List JShort) (sampleRate : Int) (language_ : Option String)
    (h : w.g_ctx = none) :
    (Java_com_example_open_1autoglm_1android_asr_WhisperAsrNative_transcribe
      E w pcm_ sampleRate language_).1 = "本地语音模型未初始化"
    ∧ (Java_com_example_open_1autoglm_1android_asr_WhisperAsrNative_transcribe
      E w pcm_ sampleRate language_).2.calls = w.calls
    ∧ (Java_com_example_open_1autoglm_1android_asr_WhisperAsrNative_transcribe
      E w pcm_ sampleRate language_).2.engine = w.engine := by
  rw [transcribe_none E w pcm_ sampleRate language_ h]
  exact ⟨rfl, rfl, rfl⟩

theorem transcribe_uninitialized_witness :
    (World.start 0 : World Nat).g_ctx = none
    ∧ (Java_com_example_open_1autoglm_1android_asr_WhisperAsrNative_transcribe
        helloEngine (World.start 0) [⟨1200, by decide⟩, ⟨-7, by decide⟩] 16000 (some "zh")).1
        = "本地语音模型未初始化"
    ∧ (Java_com_example_open_1autoglm_1android_asr_WhisperAsrNative_transcribe
        helloEngine (World.start 0) [⟨1200, by decide⟩, ⟨-7, by decide⟩] 16000 (some "zh")).2.calls
        = [] :=
  ⟨rfl,
   (transcribe_uninitialized helloEngine (World.start 0) _ 16000 (some "zh") rfl).1,
   (transcribe_uninitialized helloEngine (World.start 0) _ 16000 (some "zh") rfl).2.1⟩

/-! ## Result of `init` -/

/-- C2: for every prior state and every model path, `init` returns true if and
only if the loader returned a non-null context; the stored context afterwards is
exactly what the loader returned, so it is null after a failed load even when a
context was stored before; the loader is the last engine call `init` makes. -/
theorem init_true_iff_loaded {σ : Type} (E : Engine σ) (w : World σ) (modelPath : String) :
    ((Java_com_example_open_1autoglm_1android_asr_WhisperAsrNative_init E w modelPath).1 = true
      ↔ (loadOutcome E w modelPath).1 ≠ none)
    ∧ (Java_com_example_open_1autoglm_1android_asr_WhisperAsrNative_init E w modelPath).2.g_ctx
        = (loadOutcome E w modelPath).1
    ∧ ((loadOutcome E w modelPath).1 = none →
        (Java_com_example_open_1autoglm_1android_asr_WhisperAsrNative_init E w modelPath).1
          = false
        ∧ (Java_com_example_open_1autoglm_1android_asr_WhisperAsrNative_init
            E w modelPath).2.g_ctx = none)
    ∧ (Java_com_example_open_1autoglm_1android_asr_WhisperAsrNative_init
        E w modelPath).2.calls.getLast?
        = some (EngineCall.whisper_init_from_file_with_params modelPath (cparams E)
            (loadOutcome E w modelPath).1) := by
  rw [init_eq]
  refine ⟨?_, rfl, ?_, ?_⟩
  · simp [Option.isSome_iff_ne_none]
  · intro h
    simp [h]
  · simp

/-! ## At most one live context -/

/-- C3: over every sequence of `init` and `transcribe` calls from process start,
with the live contexts (loaded and not yet released) read off the history of
engine calls: at most one context is live after every prefix of the history,
and after the whole history the live contexts are exactly the stored one;
every release is of the one context live at that point and every load is made
with no context live, so `init` with a context stored releases it before it
loads; between a load and the next load the releases are exactly one, of the
context the first load returned (none when it returned null), and after the
most recent load there is no release and its answer is the stored context;
counted by value, every context has been released as often as it was loaded,
the stored one once less, hence exactly once when the engine never hands out
the same value twice; every decode call of the history is on the context
returned by the most recent load before it; and a `transcribe` call made after
the sequence does make its decode calls on the answer of the most recent load:
exactly one decode, on that context, with the normalized buffer and the
configuration of the call, when that load returned a context, and none when
there was no load or it returned null. -/
theorem single_live_context {σ : Type} (E : Engine σ) (e₀ : σ) (cs : List JniCall) :
    (∀ p, p <+: (run E (World.start e₀) cs).calls → (liveHandles p).length ≤ 1)
    ∧ liveHandles (run E (World.start e₀) cs).calls = (run E (World.start e₀) cs).g_ctx.toList
    ∧ (∀ p ctx, p ++ [EngineCall.whisper_free ctx] <+: (run E (World.start e₀) cs).calls →
        liveHandles p = [ctx])
    ∧ (∀ p path cp ret,
        p ++ [EngineCall.whisper_init_from_file_with_params path cp ret]
          <+: (run E (World.start e₀) cs).calls →
        liveHandles p = [])
    ∧ (∀ (w : World σ) (ctx : Handle) (modelPath : String), w.g_ctx = some ctx →
        (Java_com_example_open_1autoglm_1android_asr_WhisperAsrNative_init
          E w modelPath).2.calls
        = w.calls ++ [EngineCall.whisper_free ctx,
            EngineCall.whisper_init_from_file_with_params modelPath (cparams E)
              (loadOutcome E w modelPath).1])
    ∧ (∀ p q path cp r path' cp' r',
        p ++ [EngineCall.whisper_init_from_file_with_params path cp r] ++ q
          ++ [EngineCall.whisper_init_from_file_with_params path' cp' r']
          <+: (run E (World.start e₀) cs).calls →
        (∀ c ∈ q, c.isLoad = false) →
        releasedHandles q = r.toList)
    ∧ (∀ p q path cp r,
        (run E (World.start e₀) cs).calls
          = p ++ [EngineCall.whisper_init_from_file_with_params path cp r] ++ q →
        (∀ c ∈ q, c.isLoad = false) →
        releasedHandles q = [] ∧ (run E (World.start e₀) cs).g_ctx = r)
    ∧ (∀ h, (releasedHandles (run E (World.start e₀) cs).calls).count h
          + (if (run E (World.start e₀) cs).g_ctx = some h then 1 else 0)
        = (loadedHandles (run E (World.start e₀) cs).calls).count h)
    ∧ ((loadedHandles (run E (World.start e₀) cs).calls).Nodup →
        ∀ h ∈ loadedHandles (run E (World.start e₀) cs).calls,
          (run E (World.start e₀) cs).g_ctx ≠ some h →
          (releasedHandles (run E (World.start e₀) cs).calls).count h = 1)
    ∧ (∀ p ctx wp samples ret,
        p ++ [EngineCall.whisper_full ctx wp samples ret]
          <+: (run E (World.start e₀) cs).calls →
        lastLoaded p = some ctx)
    ∧ (∀ (pcm_ : List JShort) (sampleRate : Int) (language_ : Option String),
        ∃ added,
          (Java_com_example_open_1autoglm_1android_asr_WhisperAsrNative_transcribe
            E (run E (World.start e₀) cs) pcm_ sampleRate language_).2.calls
          = (run E (World.start e₀) cs).calls ++ added
          ∧ decodeContexts added = (lastLoaded (run E (World.start e₀) cs).calls).toList)
    ∧ (∀ (ctx : Handle), lastLoaded (run E (World.start e₀) cs).calls = some ctx →
        ∀ (pcm_ : List JShort) (sampleRate : Int) (language_ : Option String),
        ∃ ret rest,
          (Java_com_example_open_1autoglm_1android_asr_WhisperAsrNative_transcribe
            E (run E (World.start e₀) cs) pcm_ sampleRate language_).2.calls
          = (run E (World.start e₀) cs).calls
            ++ EngineCall.whisper_full ctx (wparams E language_) (pcmf32 pcm_) ret :: rest
          ∧ decodeContexts rest = []) := by
  have T : Tidy (run E (World.start e₀) cs).calls (run E (World.start e₀) cs).g_ctx :=
    Tidy.run E cs (World.start e₀) Tidy.nil
  have L : lastLoaded (run E (World.start e₀) cs).calls = (run E (World.start e₀) cs).g_ctx :=
    lastLoaded_run E cs (World.start e₀) rfl
  refine ⟨T.atMostOne, T.live, T.freeLive, T.loadEmpty, ?_, ?_, ?_, T.balance, ?_,
    T.decodeLast, ?_, ?_⟩
  · intro w ctx modelPath hg
    rw [init_eq]
    simp [releaseCalls, hg]
  · intro p q path cp r path' cp' r' hpre hq
    exact T.released_between p q path cp r path' cp' r' hpre hq
  · intro p q path cp r hcs hq
    exact T.released_after L p q path cp r hcs hq
  · intro hnd h hmem hne
    have hb := T.balance h
    rw [if_neg hne, List.count_eq_one_of_mem hnd hmem] at hb
    exact hb
  · intro pcm_ sampleRate language_
    obtain ⟨_, added, hcalls, _, hdec⟩ :=
      transcribe_calls E (run E (World.start e₀) cs) pcm_ sampleRate language_
    exact ⟨added, hcalls, by rw [hdec, L]⟩
  · intro ctx hctx pcm_ sampleRate language_
    have hg : (run E (World.start e₀) cs).g_ctx = some ctx := by rw [← L]; exact hctx
    by_cases hret : (E.whisper_full (run E (World.start e₀) cs).engine ctx
        (wparams E language_) (pcmf32 pcm_)).1 = 0
    · rw [transcribe_decoded E _ pcm_ sampleRate language_ ctx hg hret, segmentLoop_eq]
      simp only [List.append_assoc]
      refine ⟨0, _, rfl, ?_⟩
      simp only [List.cons_append, List.nil_append, decodeContexts]
      generalize (List.range _) = l
      induction l with
      | nil => rfl
      | cons a l ih => simpa [decodeContexts] using ih
    · rw [transcribe_failed E _ pcm_ sampleRate language_ ctx hg hret]
      exact ⟨_, [], rfl, rfl⟩

theorem single_live_context_witness :
    (loadedHandles (run helloEngine (World.start 0) reinitCalls).calls).Nodup
    ∧ 1 ∈ loadedHandles (run helloEngine (World.start 0) reinitCalls).calls
    ∧ (run helloEngine (World.start 0) reinitCalls).g_ctx ≠ some 1
    ∧ (releasedHandles (run helloEngine (World.start 0) reinitCalls).calls).count 1 = 1
    ∧ decodeContexts (run helloEngine (World.start 0) reinitCalls).calls = [1, 2]
    ∧ lastLoaded (run helloEngine (World.start 0) reinitCalls).calls = some 2
    ∧ (∃ ret rest,
        (Java_com_example_open_1autoglm_1android_asr_WhisperAsrNative_transcribe
          helloEngine (run helloEngine (World.start 0) reinitCalls)
          [⟨9, by decide⟩, ⟨-9, by decide⟩] 16000 (some "zh")).2.calls
        = (run helloEngine (World.start 0) reinitCalls).calls
          ++ EngineCall.whisper_full 2 (wparams helloEngine (some "zh"))
              (pcmf32 [⟨9, by decide⟩, ⟨-9, by decide⟩]) ret :: rest
        ∧ decodeContexts rest = []) :=
  ⟨by decide, by decide, by decide,
   (single_live_context helloEngine 0 reinitCalls).2.2.2.2.2.2.2.2.1
     (by decide) 1 (by decide) (by decide),
   by decide, by decide,
   (single_live_context helloEngine 0 reinitCalls).2.2.2.2.2.2.2.2.2.2.2
     2 (by decide) [⟨9, by decide⟩, ⟨-9, by decide⟩] 16000 (some "zh")⟩

/-! ## Normalization of the samples -/

/-- C4: for every sequence of 16-bit samples and every live context, the buffer
handed to the engine's decode call is the binary32 buffer `pcmf32`; it has the
length of the input, its `i`-th element is exactly the rational
`input[i] / 32768` (the binary32 conversion and division round nothing away),
and every element lies in `[-1, 1]`. -/
theorem normalized_buffer {σ : Type} (E : Engine σ) (w : World σ) (pcm_ : List JShort)
    (sampleRate : Int) (language_ : Option String) (ctx : Handle)
    (h : w.g_ctx = some ctx) :
    (∃ ret rest,
      (Java_com_example_open_1autoglm_1android_asr_WhisperAsrNative_transcribe
        E w pcm_ sampleRate language_).2.calls
      = w.calls ++ EngineCall.whisper_full ctx (wparams E language_) (pcmf32 pcm_) ret :: rest)
    ∧ pcmf32 pcm_ = pcm_.map (fun s => (s.val : ℚ) / 32768)
    ∧ (pcmf32 pcm_).length = pcm_.length
    ∧ (∀ (i : Nat) (hi : i < pcm_.length),
        (pcmf32 pcm_)[i]? = some (((pcm_.get ⟨i, hi⟩).val : ℚ) / 32768))
    ∧ (∀ q ∈ pcmf32 pcm_, -1 ≤ q ∧ q ≤ 1) := by
  refine ⟨?_, pcmf32_eq pcm_, ?_, ?_, ?_⟩
  · by_cases hret :
      (E.whisper_full w.engine ctx (wparams E language_) (pcmf32 pcm_)).1 = 0
    · rw [transcribe_decoded E w pcm_ sampleRate language_ ctx h hret]
      simp only [List.append_assoc]
      exact ⟨0, _, rfl⟩
    · rw [transcribe_failed E w pcm_ sampleRate language_ ctx h hret]
      exact ⟨_, [], rfl⟩
  · simp [pcmf32]
  · intro i hi
    rw [pcmf32_eq]
    unfold exactQuotients
    rw [List.getElem?_map, List.getElem?_eq_getElem hi]
    rfl
  · intro q hq
    rw [pcmf32_eq] at hq
    simp only [exactQuotients, List.mem_map] at hq
    obtain ⟨s, _, rfl⟩ := hq
    exact quotient_bounds s

theorem normalized_buffer_witness :
    (readyWorld helloEngine).g_ctx = some 1
    ∧ pcmf32 [⟨0, by decide⟩, ⟨16384, by decide⟩, ⟨-32768, by decide⟩, ⟨32767, by decide⟩]
        = [0, 1 / 2, -1, 32767 / 32768] :=
  ⟨readyWorld_g_ctx _ _,
   (normalized_buffer helloEngine (readyWorld helloEngine)
      [⟨0, by decide⟩, ⟨16384, by decide⟩, ⟨-32768, by decide⟩, ⟨32767, by decide⟩]
      16000 none 1 (readyWorld_g_ctx _ _)).2.1.trans (by norm_num)⟩

/-! ## Result assembly -/

/-- C5: for every live context and every input on which decode returns `0`,
when the engine reports the segments `segs` (texts possibly absent),
`transcribe` returns exactly the concatenation, by increasing index and with
nothing inserted, of the texts that are present, having asked the engine for
the count and then for each index `0 .. count - 1` in order. -/
theorem transcribe_concatenates {σ : Type} (E : Engine σ) (w : World σ)
    (pcm_ : List JShort) (sampleRate : Int) (language_ : Option String) (ctx : Handle)
    (segs : List (Option String))
    (h : w.g_ctx = some ctx)
    (hret : (E.whisper_full w.engine ctx (wparams E language_) (pcmf32 pcm_)).1 = 0)
    (hcount : E.whisper_full_n_segments
      (E.whisper_full w.engine ctx (wparams E language_) (pcmf32 pcm_)).2 ctx
      = (segs.length : Int))
    (htext : ∀ (i : Nat) (hi : i < segs.length),
      E.whisper_full_get_segment_text
        (E.whisper_full w.engine ctx (wparams E language_) (pcmf32 pcm_)).2 ctx (Int.ofNat i)
      = segs.get ⟨i, hi⟩) :
    (Java_com_example_open_1autoglm_1android_asr_WhisperAsrNative_transcribe
      E w pcm_ sampleRate language_).1 = String.join segs.reduceOption
    ∧ (Java_com_example_open_1autoglm_1android_asr_WhisperAsrNative_transcribe
      E w pcm_ sampleRate language_).2.calls
      = w.calls
        ++ [EngineCall.whisper_full ctx (wparams E language_) (pcmf32 pcm_) 0,
            EngineCall.whisper_full_n_segments ctx (segs.length : Int)]
        ++ (List.range segs.length).map (fun (i : Nat) =>
            EngineCall.whisper_full_get_segment_text ctx (Int.ofNat i) (segs.get? i).join) := by
  rw [transcribe_decoded E w pcm_ sampleRate language_ ctx h hret, hcount, segmentLoop_eq]
  simp only [Int.toNat_ofNat]
  rw [filterMap_segments E _ ctx segs htext]
  refine ⟨rfl, ?_⟩
  congr 1
  apply List.map_congr_left
  intro i hi
  have hi2 : i < segs.length := List.mem_range.1 hi
  rw [htext i hi2, List.get?_eq_get hi2]
  rfl

theorem transcribe_concatenates_witness :
    ((readyWorld helloEngine).g_ctx = some 1
      ∧ (Java_com_example_open_1autoglm_1android_asr_WhisperAsrNative_transcribe
          helloEngine (readyWorld helloEngine) [⟨3, by decide⟩] 16000 (some "en")).1
        = "Hello world")
    ∧ ((readyWorld (scripted 0 [])).g_ctx = some 1
      ∧ (Java_com_example_open_1autoglm_1android_asr_WhisperAsrNative_transcribe
          (scripted 0 []) (readyWorld (scripted 0 [])) [] 16000 none).1 = "") :=
  ⟨⟨readyWorld_g_ctx _ _,
    (transcribe_concatenates helloEngine (readyWorld helloEngine) [⟨3, by decide⟩] 16000
      (some "en") 1 [some "Hello", some " ", some "world"] (readyWorld_g_ctx _ _) rfl rfl
      (fun i hi => scripted_text 0 _ _ 1 i hi)).1.trans (by decide)⟩,
   ⟨readyWorld_g_ctx _ _,
    (transcribe_concatenates (scripted 0 []) (readyWorld (scripted 0 [])) [] 16000
      none 1 [] (readyWorld_g_ctx _ _) rfl rfl
      (fun i hi => scripted_text 0 _ _ 1 i hi)).1.trans (by decide)⟩⟩

/-! ## Failure of the decode call -/

/-- C6: for every live context and every input, if the decode call returns a
non-zero code then `transcribe` returns exactly the fixed failure message, the
decode call is the only engine call it makes (no segment count, no segment
text) and it logs the code; if the decode call returns `0`, the result is the
text assembled by the segment loop, the next engine call is the segment count,
and the failure line is not among the lines logged. -/
theorem decode_failure {σ : Type} (E : Engine σ) (w : World σ)
    (pcm_ : List JShort) (sampleRate : Int) (language_ : Option String) (ctx : Handle)
    (h : w.g_ctx = some ctx) :
    ((E.whisper_full w.engine ctx (wparams E language_) (pcmf32 pcm_)).1 ≠ 0 →
      (Java_com_example_open_1autoglm_1android_asr_WhisperAsrNative_transcribe
        E w pcm_ sampleRate language_).1 = "本地语音识别失败"
      ∧ (Java_com_example_open_1autoglm_1android_asr_WhisperAsrNative_transcribe
        E w pcm_ sampleRate language_).2.calls
        = w.calls ++ [EngineCall.whisper_full ctx (wparams E language_) (pcmf32 pcm_)
            (E.whisper_full w.engine ctx (wparams E language_) (pcmf32 pcm_)).1]
      ∧ (Java_com_example_open_1autoglm_1android_asr_WhisperAsrNative_transcribe
        E w pcm_ sampleRate language_).2.logcat
        = w.logcat ++ rateWarning E sampleRate
          ++ [LogLine.ANDROID_LOG_INFO ("Running whisper_full on "
                ++ toString pcm_.length ++ " samples"),
              LogLine.ANDROID_LOG_ERROR ("whisper_full failed, code=" ++ toString
                (E.whisper_full w.engine ctx (wparams E language_) (pcmf32 pcm_)).1)])
    ∧ ((E.whisper_full w.engine ctx (wparams E language_) (pcmf32 pcm_)).1 = 0 →
      (Java_com_example_open_1autoglm_1android_asr_WhisperAsrNative_transcribe
        E w pcm_ sampleRate language_).1
        = (segmentLoop E (E.whisper_full w.engine ctx (wparams E language_) (pcmf32 pcm_)).2 ctx
            (E.whisper_full_n_segments
              (E.whisper_full w.engine ctx (wparams E language_) (pcmf32 pcm_)).2 ctx)).1
      ∧ (∃ rest,
        (Java_com_example_open_1autoglm_1android_asr_WhisperAsrNative_transcribe
          E w pcm_ sampleRate language_).2.calls
        = w.calls ++ EngineCall.whisper_full ctx (wparams E language_) (pcmf32 pcm_) 0
            :: EngineCall.whisper_full_n_segments ctx (E.whisper_full_n_segments
                (E.whisper_full w.engine ctx (wparams E language_) (pcmf32 pcm_)).2 ctx)
            :: rest)
      ∧ (Java_com_example_open_1autoglm_1android_asr_WhisperAsrNative_transcribe
        E w pcm_ sampleRate language_).2.logcat
        = w.logcat ++ rateWarning E sampleRate
          ++ [LogLine.ANDROID_LOG_INFO ("Running whisper_full on "
                ++ toString pcm_.length ++ " samples"),
              LogLine.ANDROID_LOG_INFO ("Transcription done, segments=" ++ toString
                (E.whisper_full_n_segments
                  (E.whisper_full w.engine ctx (wparams E language_) (pcmf32 pcm_)).2 ctx))]) := by
  constructor
  · intro hret
    rw [transcribe_failed E w pcm_ sampleRate language_ ctx h hret]
    exact ⟨rfl, rfl, rfl⟩
  · intro hret
    rw [transcribe_decoded E w pcm_ sampleRate language_ ctx h hret]
    refine ⟨rfl, ?_, rfl⟩
    simp only [List.append_assoc]
    exact ⟨_, rfl⟩

theorem decode_failure_witness :
    (readyWorld (scripted (-3) [some "Hello"])).g_ctx = some 1
    ∧ (Java_com_example_open_1autoglm_1android_asr_WhisperAsrNative_transcribe
        (scripted (-3) [some "Hello"]) (readyWorld (scripted (-3) [some "Hello"]))
        [⟨5, by decide⟩] 16000 none).1 = "本地语音识别失败" :=
  ⟨readyWorld_g_ctx _ _,
   ((decode_failure (scripted (-3) [some "Hello"]) (readyWorld (scripted (-3) [some "Hello"]))
      [⟨5, by decide⟩] 16000 none 1 (readyWorld_g_ctx _ _)).1 (by decide)).1⟩

/-! ## Language hint -/

/-- C7: the language field of the decode configuration is the hint itself when
the hint is present and non-empty, and the null pointer when the hint is absent
or the empty string, so it is never the empty string; this configuration is the
one passed to the decode call whenever a context is alive. -/
theorem language_hint {σ : Type} (E : Engine σ) (language_ : Option String) :
    (∀ s : String, language_ = some s → s ≠ "" → (wparams E language_).language = some s)
    ∧ ((language_ = none ∨ language_ = some "") → (wparams E language_).language = none)
    ∧ (wparams E language_).language ≠ some ""
    ∧ (∀ (w : World σ) (pcm_ : List JShort) (sampleRate : Int) (ctx : Handle),
        w.g_ctx = some ctx →
        ∃ ret,
          (Java_com_example_open_1autoglm_1android_asr_WhisperAsrNative_transcribe
            E w pcm_ sampleRate language_).2.calls.get? w.calls.length
          = some (EngineCall.whisper_full ctx (wparams E language_) (pcmf32 pcm_) ret)) := by
  refine ⟨?_, ?_, ?_, ?_⟩
  · intro s hs hne
    subst hs
    simp [wparams, hne]
  · rintro (hs | hs) <;> subst hs <;> simp [wparams]
  · cases language_ with
    | none => simp [wparams]
    | some s =>
      by_cases hs : s = ""
      · simp [wparams, hs]
      · simp only [wparams, ne_eq, hs, not_false_eq_true, ↓reduceIte]
        intro hc
        exact hs (Option.some.inj hc)
  · intro w pcm_ sampleRate ctx h
    by_cases hret :
      (E.whisper_full w.engine ctx (wparams E language_) (pcmf32 pcm_)).1 = 0
    · rw [transcribe_decoded E w pcm_ sampleRate language_ ctx h hret]
      simp only [List.append_assoc]
      exact ⟨0, get?_after _ _ _⟩
    · rw [transcribe_failed E w pcm_ sampleRate language_ ctx h hret]
      exact ⟨_, get?_after _ _ _⟩

/-! ## `transcribe` leaves the context alone -/

/-- C8: on every path of `transcribe` (no context, decode failure, success) the
stored context after the call is the one before it and the engine calls made
contain neither a load nor a release; the decode calls made are exactly one,
on the stored context, when one is stored; hence a following `transcribe`,
whatever the outcome of the first, again passes that same context to decode. -/
theorem transcribe_keeps_context {σ : Type} (E : Engine σ) (w : World σ)
    (pcm_ : List JShort) (sampleRate : Int) (language_ : Option String)
    (pcm2 : List JShort) (sampleRate2 : Int) (language2 : Option String) :
    (Java_com_example_open_1autoglm_1android_asr_WhisperAsrNative_transcribe
      E w pcm_ sampleRate language_).2.g_ctx = w.g_ctx
    ∧ (∃ added,
      (Java_com_example_open_1autoglm_1android_asr_WhisperAsrNative_transcribe
        E w pcm_ sampleRate language_).2.calls = w.calls ++ added
      ∧ (∀ c ∈ added, c.isLifecycle = false)
      ∧ decodeContexts added = w.g_ctx.toList)
    ∧ (∃ added2,
      (Java_com_example_open_1autoglm_1android_asr_WhisperAsrNative_transcribe E
        (Java_com_example_open_1autoglm_1android_asr_WhisperAsrNative_transcribe
          E w pcm_ sampleRate language_).2 pcm2 sampleRate2 language2).2.calls
      = (Java_com_example_open_1autoglm_1android_asr_WhisperAsrNative_transcribe
          E w pcm_ sampleRate language_).2.calls ++ added2
      ∧ (∀ c ∈ added2, c.isLifecycle = false)
      ∧ decodeContexts added2 = w.g_ctx.toList) := by
  have h1 := transcribe_calls E w pcm_ sampleRate language_
  have h2 := transcribe_calls E
    (Java_com_example_open_1autoglm_1android_asr_WhisperAsrNative_transcribe
      E w pcm_ sampleRate language_).2 pcm2 sampleRate2 language2
  rw [h1.1] at h2
  exact ⟨h1.1, h1.2, h2.2⟩

/-! ## The state machine of the service -/

/-- C9 as stated fails: from the Ready state reached by a successful `init`, an
`init` whose load fails (here the empty path on the scripted engine) returns
false and leaves no stored context, so the service is Uninitialized again. -/
theorem ready_lost_on_failed_init :
    (readyWorld helloEngine).g_ctx = some 1
    ∧ (Java_com_example_open_1autoglm_1android_asr_WhisperAsrNative_init
        helloEngine (readyWorld helloEngine) "").1 = false
    ∧ (Java_com_example_open_1autoglm_1android_asr_WhisperAsrNative_init
        helloEngine (readyWorld helloEngine) "").2.g_ctx = none
    ∧ ¬ (∀ (w : World Nat) (modelPath : String), w.g_ctx ≠ none →
        (step helloEngine w (JniCall.init modelPath)).g_ctx ≠ none) := by
  refine ⟨by decide, by decide, by decide, ?_⟩
  intro hall
  exact hall (readyWorld helloEngine) "" (by decide) (by decide)

/-- C9, amended: a `transcribe` call never changes whether a context is stored;
after an `init` call the stored context is what the engine load returned, so
the service is Ready exactly when the load succeeded, whatever the state
before; hence over any sequence of calls in which the load of every `init`
succeeds, a service that is Ready is Ready at the end. -/
theorem ready_preserved_while_loads_succeed {σ : Type} (E : Engine σ) (w : World σ)
    (cs : List JniCall)
    (hready : w.g_ctx ≠ none)
    (hloads : loadsSucceed E w cs = true) :
    (run E w cs).g_ctx ≠ none
    ∧ (∀ (v : World σ) pcm sampleRate language,
        (step E v (JniCall.transcribe pcm sampleRate language)).g_ctx = v.g_ctx)
    ∧ (∀ (v : World σ) modelPath,
        (step E v (JniCall.init modelPath)).g_ctx = (loadOutcome E v modelPath).1) := by
  have htr : ∀ (v : World σ) pcm sampleRate language,
      (step E v (JniCall.transcribe pcm sampleRate language)).g_ctx = v.g_ctx :=
    fun v pcm sampleRate language => (transcribe_calls E v pcm sampleRate language).1
  have hin : ∀ (v : World σ) modelPath,
      (step E v (JniCall.init modelPath)).g_ctx = (loadOutcome E v modelPath).1 := by
    intro v modelPath
    show (Java_com_example_open_1autoglm_1android_asr_WhisperAsrNative_init
      E v modelPath).2.g_ctx = _
    rw [init_eq]
  refine ⟨?_, htr, hin⟩
  induction cs generalizing w with
  | nil => exact hready
  | cons c cs ih =>
    show (WhisperJni.run E (step E w c) cs).g_ctx ≠ none
    cases c with
    | init modelPath =>
      simp only [loadsSucceed, Bool.and_eq_true] at hloads
      apply ih
      · rw [hin]
        exact Option.isSome_iff_ne_none.1 hloads.1
      · exact hloads.2
    | transcribe pcm sampleRate language =>
      simp only [loadsSucceed] at hloads
      apply ih
      · rw [htr]
        exact hready
      · exact hloads

theorem ready_preserved_while_loads_succeed_witness :
    ((readyWorld helloEngine).g_ctx ≠ none
      ∧ loadsSucceed helloEngine (readyWorld helloEngine) reinitCalls = true)
    ∧ (run helloEngine (readyWorld helloEngine) reinitCalls).g_ctx ≠ none :=
  ⟨⟨by decide, by decide⟩,
   (ready_preserved_while_loads_succeed helloEngine (readyWorld helloEngine) reinitCalls
      (by decide) (by decide)).1⟩

/-! ## The declared sample rate -/

/-- C10: the declared sample rate only decides whether a warning is logged: for
every state, buffer and hint and any two rates, the two runs of `transcribe`
return the same string, make the same engine calls with the same arguments
(same buffer, same configuration) and the same answers, and leave the same
stored context and engine state; in particular the run with any rate returns
what the run with the engine's own rate returns. -/
theorem sample_rate_irrelevant {σ : Type} (E : Engine σ) (w : World σ)
    (pcm_ : List JShort) (language_ : Option String) (r1 r2 : Int) :
    (Java_com_example_open_1autoglm_1android_asr_WhisperAsrNative_transcribe
      E w pcm_ r1 language_).1
      = (Java_com_example_open_1autoglm_1android_asr_WhisperAsrNative_transcribe
          E w pcm_ r2 language_).1
    ∧ (Java_com_example_open_1autoglm_1android_asr_WhisperAsrNative_transcribe
      E w pcm_ r1 language_).2.calls
      = (Java_com_example_open_1autoglm_1android_asr_WhisperAsrNative_transcribe
          E w pcm_ r2 language_).2.calls
    ∧ (Java_com_example_open_1autoglm_1android_asr_WhisperAsrNative_transcribe
      E w pcm_ r1 language_).2.g_ctx
      = (Java_com_example_open_1autoglm_1android_asr_WhisperAsrNative_transcribe
          E w pcm_ r2 language_).2.g_ctx
    ∧ (Java_com_example_open_1autoglm_1android_asr_WhisperAsrNative_transcribe
      E w pcm_ r1 language_).2.engine
      = (Java_com_example_open_1autoglm_1android_asr_WhisperAsrNative_transcribe
          E w pcm_ r2 language_).2.engine
    ∧ (Java_com_example_open_1autoglm_1android_asr_WhisperAsrNative_transcribe
      E w pcm_ r1 language_).1
      = (Java_com_example_open_1autoglm_1android_asr_WhisperAsrNative_transcribe
          E w pcm_ E.WHISPER_SAMPLE_RATE language_).1 := by
  cases hg : w.g_ctx with
  | none =>
    refine ⟨?_, ?_, ?_, ?_, ?_⟩ <;> simp only [transcribe_none E w pcm_ _ language_ hg]
  | some ctx =>
    by_cases hret :
      (E.whisper_full w.engine ctx (wparams E language_) (pcmf32 pcm_)).1 = 0
    · refine ⟨?_, ?_, ?_, ?_, ?_⟩ <;>
        simp only [transcribe_decoded E w pcm_ _ language_ ctx hg hret]
    · refine ⟨?_, ?_, ?_, ?_, ?_⟩ <;>
        simp only [transcribe_failed E w pcm_ _ language_ ctx hg hret]

end WhisperJni
